import Mathlib

/-!
Shallow embedding of the PACE provider-dashboard pipeline and proofs about it.

The definitions below are translated from the Python sources
`enrollment_processing.py`, `process_provider_data.py`, `download_zip_map.py`
and `dashboard.py`.  Dataframes are embedded as lists of rows (structures or
tuples); the pandas operation
`df.groupby(keys, as_index=False)[col].sum()` is embedded as `groupbySum`;
`pd.merge(..., how="left")` is embedded as a flat-map that expands each left
row by its matching right rows, or by a single null-carrying row when there is
no match, exactly as pandas does.
-/

namespace PaceDash

/-- Sum of the value column of `l` over the rows whose key equals `k`; this is
the value the pandas aggregation `df.groupby(keys)[col].sum()` records for the
group `k`. -/
def keySum {κ : Type} [DecidableEq κ] (l : List (κ × Int)) (k : κ) : Int :=
  ((l.filter fun p => p.1 = k).map Prod.snd).sum

/-- Embeds pandas `df.groupby(keys, as_index=False)[col].sum()`: one output row
per distinct key, carrying the summed value column.  pandas orders the output
rows by sorted key; the row order is irrelevant to every property proved in
this file, so the order produced by `List.dedup` is used instead. -/
def groupbySum {κ : Type} [DecidableEq κ] (l : List (κ × Int)) : List (κ × Int) :=
  ((l.map Prod.fst).dedup).map fun k => (k, keySum l k)

/-- Total of the value column. -/
def totalVal {κ : Type} (l : List (κ × Int)) : Int :=
  (l.map Prod.snd).sum

theorem keySum_nil {κ : Type} [DecidableEq κ] (k : κ) : keySum ([] : List (κ × Int)) k = 0 :=
  rfl

theorem keySum_cons {κ : Type} [DecidableEq κ] (p : κ × Int) (l : List (κ × Int)) (k : κ) :
    keySum (p :: l) k = (if p.1 = k then p.2 else 0) + keySum l k := by
  by_cases h : p.1 = k <;> simp [keySum, List.filter_cons, h]

/-- On a list whose keys are pairwise distinct, the per-key filter selects
exactly the one row with that key. -/
theorem filter_key_eq_single {κ : Type} [DecidableEq κ] :
    ∀ (l : List (κ × Int)), (l.map Prod.fst).Nodup → ∀ p ∈ l,
      l.filter (fun q => q.1 = p.1) = [p]
  | [], _, p, hp => by cases hp
  | q :: t, hnd, p, hp => by
    rw [List.map_cons, List.nodup_cons] at hnd
    obtain ⟨hq, hndt⟩ := hnd
    rcases List.mem_cons.mp hp with hpq | hpt
    · subst hpq
      have ht : t.filter (fun r => r.1 = p.1) = [] := by
        refine List.filter_eq_nil_iff.mpr ?_
        intro r hr
        simp only [decide_eq_true_eq]
        intro hrq
        exact hq (hrq ▸ List.mem_map_of_mem Prod.fst hr)
      simp [List.filter_cons, ht]
    · have hne : ¬ q.1 = p.1 := by
        intro h
        exact hq (h ▸ List.mem_map_of_mem Prod.fst hpt)
      have hrec := filter_key_eq_single t hndt p hpt
      simp [List.filter_cons, hne, hrec]

theorem keySum_of_nodupKeys {κ : Type} [DecidableEq κ] (l : List (κ × Int))
    (hnd : (l.map Prod.fst).Nodup) (p : κ × Int) (hp : p ∈ l) :
    keySum l p.1 = p.2 := by
  simp [keySum, filter_key_eq_single l hnd p hp]

/-- A grouped table with pairwise-distinct keys is a fixed point of
`groupbySum`. -/
theorem groupbySum_of_nodupKeys {κ : Type} [DecidableEq κ] (l : List (κ × Int))
    (hnd : (l.map Prod.fst).Nodup) : groupbySum l = l := by
  unfold groupbySum
  rw [List.dedup_eq_self.mpr hnd, List.map_map]
  have : ∀ p ∈ l, ((fun k => (k, keySum l k)) ∘ Prod.fst) p = id p := by
    intro p hp
    simp [keySum_of_nodupKeys l hnd p hp]
  rw [List.map_congr_left this, List.map_id]

theorem groupbySum_keys {κ : Type} [DecidableEq κ] (l : List (κ × Int)) :
    (groupbySum l).map Prod.fst = (l.map Prod.fst).dedup := by
  simp [groupbySum, List.map_map, Function.comp_def]

/-- Grouping with summation is idempotent. -/
theorem groupbySum_idem {κ : Type} [DecidableEq κ] (l : List (κ × Int)) :
    groupbySum (groupbySum l) = groupbySum l := by
  apply groupbySum_of_nodupKeys
  rw [groupbySum_keys]
  exact List.nodup_dedup _

/-- Key of the state-county-plan-date grouping of the combined enrollment
table: (STATE, COUNTY, PLAN TYPE, DATE), with the month encoded as the number
yyyymm. -/
abbrev EnrlKey := String × String × String × Nat

/-- Embeds line 130 of `enrollment_processing.py`:
`combined_enrl.groupby(["STATE", "COUNTY", "PLAN TYPE", "DATE"], as_index=False)["ENROLLED"].sum()`,
the step that removes duplicate rows by summing enrollment. -/
def dedupEnrollment (l : List (EnrlKey × Int)) : List (EnrlKey × Int) :=
  groupbySum l

/-- C4: the deduplication step of `clean_and_combine` — grouping the combined
enrollment table by (STATE, COUNTY, PLAN TYPE, DATE) and summing ENROLLED — is
idempotent: applying it twice yields exactly the same table (hence the same
totals) as applying it once. -/
theorem dedupEnrollment_idem (l : List (EnrlKey × Int)) :
    dedupEnrollment (dedupEnrollment l) = dedupEnrollment l :=
  groupbySum_idem l

theorem sum_map_add_int {κ : Type} (ks : List κ) (f g : κ → Int) :
    (ks.map fun k => f k + g k).sum = (ks.map f).sum + (ks.map g).sum := by
  induction ks with
  | nil => simp
  | cons a t ih => simp only [List.map_cons, List.sum_cons, ih]; ring

theorem sum_ite_not_mem {κ : Type} [DecidableEq κ] (a : κ) (v : Int) (ks : List κ)
    (ha : a ∉ ks) : (ks.map fun k => if a = k then v else 0).sum = 0 := by
  refine List.sum_eq_zero ?_
  intro x hx
  obtain ⟨k, hk, rfl⟩ := List.mem_map.mp hx
  have : ¬ a = k := fun h => ha (h ▸ hk)
  simp [this]

theorem sum_ite_mem {κ : Type} [DecidableEq κ] (a : κ) (v : Int) :
    ∀ (ks : List κ), ks.Nodup → a ∈ ks →
      (ks.map fun k => if a = k then v else 0).sum = v
  | [], _, ha => by cases ha
  | b :: t, hnd, ha => by
    rw [List.nodup_cons] at hnd
    rcases List.mem_cons.mp ha with hab | hat
    · subst hab
      simp [sum_ite_not_mem a v t hnd.1]
    · have hne : ¬ a = b := fun h => hnd.1 (h ▸ hat)
      simp [hne, sum_ite_mem a v t hnd.2 hat]

/-- Summing the per-key group sums over any duplicate-free list of keys that
covers every key of the table recovers the total of the value column. -/
theorem sum_keySum {κ : Type} [DecidableEq κ] (ks : List κ) (hnd : ks.Nodup) :
    ∀ (l : List (κ × Int)), (∀ p ∈ l, p.1 ∈ ks) →
      (ks.map fun k => keySum l k).sum = totalVal l
  | [], _ => by
    simp only [keySum_nil, totalVal, List.map_nil, List.sum_nil]
    exact List.sum_eq_zero (by intro x hx; obtain ⟨k, _, rfl⟩ := List.mem_map.mp hx; rfl)
  | p :: t, hcov => by
    have h1 : (ks.map fun k => keySum (p :: t) k)
        = ks.map fun k => (if p.1 = k then p.2 else 0) + keySum t k :=
      List.map_congr_left fun k _ => keySum_cons p t k
    have hcovt : ∀ q ∈ t, q.1 ∈ ks := fun q hq => hcov q (List.mem_cons_of_mem p hq)
    have hp1 : p.1 ∈ ks := hcov p (List.mem_cons_self p t)
    rw [h1, sum_map_add_int, sum_ite_mem p.1 p.2 ks hnd hp1, sum_keySum ks hnd t hcovt]
    simp [totalVal]

/-- Grouping with summation preserves the total of the value column. -/
theorem totalVal_groupbySum {κ : Type} [DecidableEq κ] (l : List (κ × Int)) :
    totalVal (groupbySum l) = totalVal l := by
  have hnd := List.nodup_dedup (l.map Prod.fst)
  have hcov : ∀ p ∈ l, p.1 ∈ (l.map Prod.fst).dedup := fun p hp =>
    List.mem_dedup.mpr (List.mem_map_of_mem Prod.fst hp)
  have h1 : totalVal (groupbySum l) = ((l.map Prod.fst).dedup.map fun k => keySum l k).sum := by
    simp [groupbySum, totalVal, List.map_map, Function.comp_def]
  rw [h1, sum_keySum _ hnd l hcov]

/-- Every value of a grouped table is a sum of input values, hence non-negative
when all input values are. -/
theorem groupbySum_nonneg {κ : Type} [DecidableEq κ] (l : List (κ × Int))
    (h : ∀ p ∈ l, 0 ≤ p.2) : ∀ p ∈ groupbySum l, 0 ≤ p.2 := by
  intro p hp
  obtain ⟨k, _, rfl⟩ := List.mem_map.mp hp
  refine List.sum_nonneg ?_
  intro x hx
  obtain ⟨q, hq, rfl⟩ := List.mem_map.mp hx
  exact h q (List.mem_of_mem_filter hq)

/-- A raw value of the ENROLLED column as read from a monthly CSV: either a
value that `pd.to_numeric` parses as a number (numeric cells and numeric
strings, carrying the parsed value), the placeholder sentinel "." that the
CMS files use for suppressed counts, some other non-numeric string, or a
missing value (NaN). -/
inductive Cell : Type
  | num (n : Int)
  | dot
  | other (s : String)
  | missing
  deriving DecidableEq

/-- Embeds line 101 of `enrollment_processing.py`:
`pd.to_numeric(enrl_df["ENROLLED"].replace(".", 0), errors="coerce").fillna(0)`
applied to one cell.  The sentinel "." is first replaced by 0; `to_numeric`
keeps parsed numbers and turns any other non-numeric value into NaN; `fillna`
then turns NaN (including originally missing cells) into 0. -/
def coerceCell : Cell → Int
  | .num n => n
  | .dot => 0
  | .other _ => 0
  | .missing => 0

/-- The whole coerced ENROLLED column. -/
def coerceColumn (col : List Cell) : List Int :=
  col.map coerceCell

/-- The raw cell, where numeric, holds a non-negative number. -/
def Cell.nonneg : Cell → Prop
  | .num n => 0 ≤ n
  | _ => True

instance (c : Cell) : Decidable c.nonneg :=
  match c with
  | .num n => inferInstanceAs (Decidable (0 ≤ n))
  | .dot => inferInstanceAs (Decidable True)
  | .other _ => inferInstanceAs (Decidable True)
  | .missing => inferInstanceAs (Decidable True)

theorem coerceCell_nonneg (c : Cell) (h : c.nonneg) : 0 ≤ coerceCell c := by
  cases c with
  | num n => exact h
  | dot => exact le_refl 0
  | other s => exact le_refl 0
  | missing => exact le_refl 0

/-- C3 counterexample: a numeric ENROLLED value of -3 is kept by the coercion
of line 101 untouched, so the value used in the aggregation is negative; the
claim that every ENROLLED value used in the aggregation is non-negative is
false on the code. -/
theorem coerce_negative_counterexample :
    coerceColumn [Cell.num (-3)] = [-3] ∧ ¬ (0 ≤ (-3 : Int)) := by
  exact ⟨rfl, by decide⟩

/-- C3 (amended): the coercion of line 101 maps the sentinel ".", every other
non-numeric value and every missing value to 0 and keeps every numeric value
unchanged; consequently the ENROLLED values used in the aggregation are
non-negative provided every numeric value in the raw column is non-negative
(the code itself does not rule out negative numeric input). -/
theorem coerceColumn_amended (col : List Cell) (h : ∀ c ∈ col, c.nonneg) :
    coerceColumn col = col.map (fun c => match c with | .num n => n | _ => 0)
    ∧ ∀ v ∈ coerceColumn col, 0 ≤ v := by
  constructor
  · refine List.map_congr_left ?_
    intro c _
    cases c <;> rfl
  · intro v hv
    obtain ⟨c, hc, rfl⟩ := List.mem_map.mp hv
    exact coerceCell_nonneg c (h c hc)

/-- Witness for C3 (amended): evaluated on a concrete column holding a numeric
value, the sentinel and a missing cell. -/
theorem coerceColumn_amended_witness :
    0 ≤ (coerceCell (Cell.num 5)) :=
  (coerceColumn_amended [Cell.num 5, Cell.dot, Cell.missing] (by decide)).2
    (coerceCell (Cell.num 5)) (by decide)

/-- A row of a raw monthly enrollment CSV after the column normalisation of
lines 94-98 of `enrollment_processing.py`: the retained columns STATE, COUNTY,
PLAN TYPE and the raw ENROLLED cell. -/
structure EnrlRow where
  state : String
  county : String
  planType : String
  enrolled : Cell
  deriving DecidableEq

/-- Embeds lines 105-106 of `enrollment_processing.py`:
`enrl_df[enrl_df["STATE"].isin(states)].groupby(["STATE", "COUNTY"], as_index=False)["ENROLLED"].sum()`
on the coerced monthly file. -/
def stateMAMonth (states : List String) (rows : List EnrlRow) : List ((String × String) × Int) :=
  groupbySum ((rows.filter fun r => r.state ∈ states).map
    fun r => ((r.state, r.county), coerceCell r.enrolled))

/-- Embeds line 110 of `enrollment_processing.py`: `enrl_df["ENROLLED"].sum()`
over the whole coerced monthly file, before any state or plan-type filter. -/
def nationalMonth (rows : List EnrlRow) : Int :=
  (rows.map fun r => coerceCell r.enrolled).sum

/-- Embeds lines 117-120 of `enrollment_processing.py`: restrict the monthly
file to the selected states and to plan type National PACE. -/
def paceMonth (states : List String) (rows : List EnrlRow) : List EnrlRow :=
  (rows.filter fun r => r.state ∈ states).filter fun r => r.planType = "National PACE"

/-- Embeds `clean_and_combine` (lines 74-141 of `enrollment_processing.py`).
A monthly file is a pair of the month code yyyymm (the DATE column value of
lines 106, 112 and 123) and its rows.  Returns the three persisted tables
(combined_enrl, combined_total_ma, combined_national_ma), each after its final
duplicate-removing grouping of lines 130-132. -/
def cleanAndCombine (states : List String) (files : List (Nat × List EnrlRow)) :
    List (EnrlKey × Int) × List ((String × String × Nat) × Int) × List (Nat × Int) :=
  let combined_enrl := files.flatMap fun f =>
    (paceMonth states f.2).map fun r => ((r.state, r.county, r.planType, f.1), coerceCell r.enrolled)
  let combined_total_ma := files.flatMap fun f =>
    (stateMAMonth states f.2).map fun p => ((p.1.1, p.1.2, f.1), p.2)
  let combined_national := files.map fun f => (f.1, nationalMonth f.2)
  (dedupEnrollment combined_enrl, groupbySum combined_total_ma, groupbySum combined_national)

/-- C5 counterexample: a monthly file holding the single numeric ENROLLED
value -3 yields NATIONAL_MA_ENROLLED = -3 for that month, a negative
aggregated enrollment count; the non-negativity half of the claim is false on
the code. -/
theorem national_negative_counterexample :
    (cleanAndCombine ["CA"]
        [(202301, [⟨"CA", "Los Angeles", "National PACE", Cell.num (-3)⟩])]).2.2
      = [(202301, -3)] ∧ ((-3 : Int) < 0) := by
  constructor
  · rfl
  · decide

/-- C5 (amended): for monthly files with pairwise-distinct dates, the national
table records for every month exactly the sum of the coerced ENROLLED values
over all rows of that month's file; and provided every numeric raw ENROLLED
value is non-negative (which the code itself does not enforce), every
aggregated enrollment count — national, state total, and PACE per-county — is
non-negative. -/
theorem cleanAndCombine_national_spec (states : List String)
    (files : List (Nat × List EnrlRow))
    (hnd : (files.map Prod.fst).Nodup)
    (hpos : ∀ f ∈ files, ∀ r ∈ f.2, r.enrolled.nonneg) :
    (cleanAndCombine states files).2.2
        = files.map (fun f => (f.1, (f.2.map fun r => coerceCell r.enrolled).sum))
    ∧ (∀ p ∈ (cleanAndCombine states files).2.2, 0 ≤ p.2)
    ∧ (∀ p ∈ (cleanAndCombine states files).1, 0 ≤ p.2)
    ∧ (∀ p ∈ (cleanAndCombine states files).2.1, 0 ≤ p.2) := by
  have hkeys : ((files.map fun f => (f.1, nationalMonth f.2)).map Prod.fst).Nodup := by
    rw [List.map_map]
    exact hnd
  have hnat : (cleanAndCombine states files).2.2
      = files.map fun f => (f.1, nationalMonth f.2) := by
    show groupbySum (files.map fun f => (f.1, nationalMonth f.2))
        = files.map fun f => (f.1, nationalMonth f.2)
    exact groupbySum_of_nodupKeys _ hkeys
  refine ⟨hnat, ?_, ?_, ?_⟩
  · intro p hp
    rw [hnat] at hp
    obtain ⟨f, hf, rfl⟩ := List.mem_map.mp hp
    refine List.sum_nonneg ?_
    intro x hx
    obtain ⟨r, hr, rfl⟩ := List.mem_map.mp hx
    exact coerceCell_nonneg _ (hpos f hf r hr)
  · refine groupbySum_nonneg _ ?_
    intro p hp
    obtain ⟨f, hf, hpf⟩ := List.mem_flatMap.mp hp
    obtain ⟨r, hr, rfl⟩ := List.mem_map.mp hpf
    have hr2 : r ∈ f.2 := List.mem_of_mem_filter (List.mem_of_mem_filter hr)
    exact coerceCell_nonneg _ (hpos f hf r hr2)
  · refine groupbySum_nonneg _ ?_
    intro p hp
    obtain ⟨f, hf, hpf⟩ := List.mem_flatMap.mp hp
    obtain ⟨q, hq, rfl⟩ := List.mem_map.mp hpf
    have hq2 : 0 ≤ q.2 := by
      refine groupbySum_nonneg _ ?_ q hq
      intro s hs
      obtain ⟨r, hr, rfl⟩ := List.mem_map.mp hs
      exact coerceCell_nonneg _ (hpos f hf r (List.mem_of_mem_filter hr))
    exact hq2

/-- Witness for C5 (amended): the national table of a one-month run over a
two-row file records the month's coerced sum. -/
theorem cleanAndCombine_national_witness :
    (cleanAndCombine ["CA"]
        [(202301, [⟨"CA", "Los Angeles", "National PACE", Cell.num 5⟩,
                   ⟨"CA", "Fresno", "HMO/HMOPOS", Cell.dot⟩])]).2.2
      = [(202301, ([⟨"CA", "Los Angeles", "National PACE", Cell.num 5⟩,
                    ⟨"CA", "Fresno", "HMO/HMOPOS", Cell.dot⟩] :
            List EnrlRow).map (fun r => coerceCell r.enrolled) |>.sum)] :=
  (cleanAndCombine_national_spec ["CA"]
      [(202301, [⟨"CA", "Los Angeles", "National PACE", Cell.num 5⟩,
                 ⟨"CA", "Fresno", "HMO/HMOPOS", Cell.dot⟩])]
      (by decide) (by decide)).1

/-- Outcome of `requests.get(url)` followed by `response.raise_for_status()`
(lines 36-37 of `enrollment_processing.py`): success, an HTTP error status
(raised as `requests.exceptions.HTTPError`), or any other request failure. -/
inductive HttpResult : Type
  | success
  | httpError
  | otherError
  deriving DecidableEq

/-- Observable side effects of processing one file in `download_and_unzip`:
the HTTP GET of line 36, the archive write of lines 45-46, and the
`extractall` of line 64. -/
inductive Ev : Type
  | httpGet
  | writeArchive
  | extract
  deriving DecidableEq

/-- Whether `download_and_unzip` returns normally to its caller or lets an
exception propagate out. -/
inductive RunStatus : Type
  | normal
  | raised
  deriving DecidableEq

/-- Environment for processing one file identifier in `download_and_unzip`:
the `enrl_file_dict` lookup result (line 20, `none` meaning the identifier has
no entry so the subscript raises KeyError), whether the archive already exists
at `complete_save_path` (line 42), whether the extraction directory already
holds non-zip files (lines 52-56), whether the downloaded archive is a zip
file (line 62), the HTTP outcome, and whether `extractall` raises. -/
structure FileEnv where
  nameOf : Option String
  archiveExists : Bool
  hasNonZip : Bool
  isZip : Bool
  http : HttpResult
  extractRaises : Bool

/-- Body of the try block of lines 27-67 of `enrollment_processing.py` for one
file: the events it performs, and the exception it raises, if any.  The HTTP
GET is issued unconditionally at line 36; only afterwards does line 42 test
whether the archive already exists and, if so, skip the write; lines 52-59
skip extraction when non-zip files already exist in the directory. -/
def tryBody (e : FileEnv) : List Ev × Option Unit :=
  match e.http with
  | .httpError => ([.httpGet], some ())
  | .otherError => ([.httpGet], some ())
  | .success =>
    let evs := if e.archiveExists then [Ev.httpGet] else [Ev.httpGet, Ev.writeArchive]
    if e.hasNonZip then (evs, none)
    else if e.isZip then (evs ++ [Ev.extract], if e.extractRaises then some () else none)
    else (evs, none)

/-- One iteration of the loop of `download_and_unzip` (lines 19-72).  The
`enrl_file_dict[file]` lookup of line 20 happens before the try block, so a
missing entry raises a KeyError that is not caught; every exception raised
inside the try block is caught by the two except clauses of lines 69-72, which
only print, so the iteration then ends normally. -/
def processFile (e : FileEnv) : List Ev × RunStatus :=
  match e.nameOf with
  | none => ([], .raised)
  | some _ => ((tryBody e).1, .normal)

/-- Embeds the whole loop of `download_and_unzip(file_list)`: processes the
identifiers in order, recording each one's events, and stops early only when
an iteration lets an exception propagate. -/
def runAll (env : String → FileEnv) : List String → List (String × List Ev) × RunStatus
  | [] => ([], .normal)
  | f :: t =>
    match processFile (env f) with
    | (evs, .raised) => ([(f, evs)], .raised)
    | (evs, .normal) =>
      let rest := runAll env t
      ((f, evs) :: rest.1, rest.2)

/-- Month identifiers configured in `process_all_enrollment_data.py`
(lines 19-24), the only caller of `download_and_unzip`. -/
def enrlMonths : List String :=
  ["202301", "202302", "202303", "202304", "202305", "202306", "202307", "202308",
   "202309", "202310", "202311", "202312", "202401", "202402", "202403", "202404",
   "202405", "202406", "202407", "202408", "202409", "202410", "202411", "202412",
   "202501", "202502", "202503", "202504", "202505", "202506", "202507", "202508",
   "202509", "202510", "202511", "202512"]

/-- Modelled from the spec: `enrl_file_dict` from `dicts/enrollment_dicts.py`,
a module this repository imports at line 10 of `enrollment_processing.py` but
whose source is not among the given files.  Per the spec the downloader input
is the list of configured year-month identifiers, each mapped to the CMS zip
file name for that month; a Python dict subscript with any other identifier
raises KeyError, embedded here as `none`. -/
def enrlFileDict (file : String) : Option String :=
  if file ∈ enrlMonths then some ("ma-enrollment-" ++ file ++ ".zip") else none

/-- Concrete per-file environment used by the C2 counterexample: the archive
already exists on disk and the HTTP request succeeds. -/
def envArchivePresent : FileEnv :=
  ⟨some "ma-enrollment-202301.zip", true, false, true, .success, false⟩

/-- C2 counterexample: even when the archive already exists at the local save
path, `download_and_unzip` still issues the HTTP request (line 36 runs before
the existence check of line 42), so the claim that no HTTP request is issued
for an already-present file is false on the code. -/
theorem download_http_always_counterexample :
    envArchivePresent.archiveExists = true
    ∧ Ev.httpGet ∈ (processFile envArchivePresent).1 := by
  constructor
  · rfl
  · decide

/-- C2 (amended): for a file identifier with a dictionary entry, the HTTP
request is always issued, but when the archive already exists at the local
save path it is not overwritten (no write event), so the existing file is left
unchanged; and when the extraction directory already holds extracted (non-zip)
files, extraction is skipped. -/
theorem processFile_skip_spec (e : FileEnv) (hname : e.nameOf.isSome = true) :
    Ev.httpGet ∈ (processFile e).1
    ∧ (e.archiveExists = true → Ev.writeArchive ∉ (processFile e).1)
    ∧ (e.hasNonZip = true → Ev.extract ∉ (processFile e).1) := by
  rcases e with ⟨name, ae, hnz, iz, http, er⟩
  cases name with
  | none => cases hname
  | some s =>
    cases http <;> cases ae <;> cases hnz <;> cases iz <;> cases er <;>
      simp [processFile, tryBody]

/-- Witness for C2 (amended): on a concrete environment where the archive is
present and extracted files exist, no write and no extraction happen. -/
theorem processFile_skip_witness :
    Ev.writeArchive ∉ (processFile ⟨some "ma-enrollment-202301.zip", true, true, true,
        HttpResult.success, false⟩).1 :=
  (processFile_skip_spec ⟨some "ma-enrollment-202301.zip", true, true, true,
      HttpResult.success, false⟩ rfl).2.1 rfl

/-- Environment used for C9: dictionary lookups follow the (spec-modelled)
`enrl_file_dict`; downloads succeed and archives extract cleanly. -/
def envDict : String → FileEnv := fun f =>
  ⟨enrlFileDict f, false, false, true, .success, false⟩

/-- C9 counterexample: `download_and_unzip` run on the list containing the
identifier "999999", which has no `enrl_file_dict` entry, propagates the
KeyError of the line-20 subscript to its caller (the lookup happens before the
try block), so the claim that the function never propagates an exception is
false on the code. -/
theorem runAll_keyerror_counterexample :
    (runAll envDict ["999999"]).2 = RunStatus.raised := by
  decide

theorem processFile_normal (e : FileEnv) (hname : e.nameOf.isSome = true) :
    (processFile e).2 = RunStatus.normal
    ∧ ((processFile e).1.filter fun ev => ev = Ev.httpGet).length ≤ 1 := by
  rcases e with ⟨name, ae, hnz, iz, http, er⟩
  cases name with
  | none => cases hname
  | some s =>
    cases http <;> cases ae <;> cases hnz <;> cases iz <;> cases er <;>
      simp [processFile, tryBody]

/-- C9 (amended): when every identifier of the list has an `enrl_file_dict`
entry, every exception raised while downloading or extracting (HTTP errors and
all others) is caught and the loop continues: the run returns normally, every
file of the list is processed in order, and no file is ever retried (at most
one HTTP request per file).  The amendment is needed because an identifier
without a dictionary entry raises a KeyError before the try block, which does
propagate to the caller. -/
theorem runAll_catches (env : String → FileEnv) (files : List String)
    (h : ∀ f ∈ files, (env f).nameOf.isSome = true) :
    (runAll env files).2 = RunStatus.normal
    ∧ (runAll env files).1.map Prod.fst = files
    ∧ ∀ pr ∈ (runAll env files).1,
        ((pr.2.filter fun ev => ev = Ev.httpGet).length ≤ 1) := by
  induction files with
  | nil => exact ⟨rfl, rfl, by intro pr hpr; cases hpr⟩
  | cons f t ih =>
    have hf := processFile_normal (env f) (h f (List.mem_cons_self f t))
    have iht := ih fun g hg => h g (List.mem_cons_of_mem f hg)
    have hrun : runAll env (f :: t)
        = ((f, (processFile (env f)).1) :: (runAll env t).1, (runAll env t).2) := by
      rcases hpf : processFile (env f) with ⟨evs, st⟩
      cases st with
      | raised => rw [hpf] at hf; cases hf.1
      | normal => simp only [runAll, hpf]
    refine ⟨?_, ?_, ?_⟩
    · rw [hrun]; exact iht.1
    · rw [hrun]; simpa using iht.2.1
    · rw [hrun]
      intro pr hpr
      rcases List.mem_cons.mp hpr with hpr1 | hpr2
      · subst hpr1; exact hf.2
      · exact iht.2.2 pr hpr2

/-- Witness for C9 (amended): a run over two configured months returns
normally. -/
theorem runAll_catches_witness :
    (runAll envDict ["202301", "202302"]).2 = RunStatus.normal :=
  (runAll_catches envDict ["202301", "202302"] (by decide)).1

/-- Left-pad a character list with the digit 0 up to length `n`. -/
def padZeros (n : Nat) (l : List Char) : List Char :=
  List.replicate (n - l.length) '0' ++ l

/-- Embeds `df_ca["Rndrng_Prvdr_Zip5"].astype(str).str.zfill(5)` (line 76 of
`process_provider_data.py`): pad the string with leading zeros to width 5,
keeping a leading sign, if any, in front of the padding as Python `zfill`
does. -/
def zfill5 (s : String) : String :=
  match s.toList with
  | [] => String.mk (padZeros 5 [])
  | c :: rest =>
    if c = '-' ∨ c = '+' then String.mk (c :: padZeros 4 rest)
    else String.mk (padZeros 5 (c :: rest))

/-- A row of the national provider file restricted to the columns read at
lines 50-54 of `process_provider_data.py`. -/
structure ProvRow where
  npi : Nat
  lastOrg : String
  firstName : String
  state : String
  ptype : String
  benes : Int
  payment : Int
  zipRaw : String
  deriving DecidableEq

/-- A row of the merged provider table of line 80: the provider columns, the
zero-padded zipcode, and the county contributed by the crosswalk — `none`
embeds the NaN a left join leaves when the zip has no crosswalk entry. -/
structure MergedRow where
  prov : ProvRow
  zipcode : String
  county : Option String
  deriving DecidableEq

/-- Expansion of one provider row under
`pd.merge(df_ca, zip_map[["zipcode", "county"]], on="zipcode", how="left")`
(line 80 of `process_provider_data.py`): one output row per crosswalk entry
matching the padded zip, or a single county-less row when no entry matches.
pandas performs no deduplication of the right table, so several crosswalk
entries for one zip fan the provider row out. -/
def rowJoin (zmap : List (String × String)) (r : ProvRow) : List MergedRow :=
  let z := zfill5 r.zipRaw
  let ms := zmap.filter fun m => m.1 = z
  if ms.isEmpty then [⟨r, z, none⟩] else ms.map fun m => ⟨r, z, some m.2⟩

/-- Embeds the whole left join of line 80 over a provider table. -/
def mergeZipCounty (zmap : List (String × String)) (provs : List ProvRow) : List MergedRow :=
  provs.flatMap (rowJoin zmap)

/-- Provider row used by the C1 counterexample. -/
def provDup : ProvRow :=
  ⟨1003000126, "Smith", "Amy", "CA", "Internal Medicine", 25, 1200, "90001"⟩

/-- Crosswalk used by the C1 counterexample: the zip 90001 is listed with two
counties, as the many-to-many source crosswalk can do. -/
def zmapDup : List (String × String) :=
  [("90001", "Los Angeles"), ("90001", "Orange")]

/-- C1 counterexample: a provider row whose padded zip appears in the
crosswalk under two counties produces two joined rows carrying two different
counties, so the claim that the join assigns exactly one county per matched
provider row — first match winning — is false on the code. -/
theorem zipJoin_fanout_counterexample :
    zfill5 provDup.zipRaw ∈ zmapDup.map Prod.fst
    ∧ (mergeZipCounty zmapDup [provDup]).length = 2
    ∧ MergedRow.mk provDup "90001" (some "Los Angeles") ∈ mergeZipCounty zmapDup [provDup]
    ∧ MergedRow.mk provDup "90001" (some "Orange") ∈ mergeZipCounty zmapDup [provDup] := by
  refine ⟨?_, ?_, ?_, ?_⟩ <;> decide

/-- C1 (amended): for a provider row whose zero-padded 5-digit zip appears in
the crosswalk, the left join produces exactly one output row per crosswalk
entry for that zip (there is no first-match deduplication), every produced row
carries that provider, that padded zip and a county taken from a matching
crosswalk entry, and in particular the row receives exactly one county
precisely when the crosswalk lists exactly one entry for its zip. -/
theorem rowJoin_matched (zmap : List (String × String)) (r : ProvRow)
    (h : zfill5 r.zipRaw ∈ zmap.map Prod.fst) :
    (rowJoin zmap r).length = (zmap.filter fun m => m.1 = zfill5 r.zipRaw).length
    ∧ (∀ m ∈ rowJoin zmap r, m.prov = r ∧ m.zipcode = zfill5 r.zipRaw
        ∧ ∃ c, m.county = some c ∧ (zfill5 r.zipRaw, c) ∈ zmap)
    ∧ ((zmap.filter fun m => m.1 = zfill5 r.zipRaw).length = 1 →
        (rowJoin zmap r).length = 1) := by
  obtain ⟨e, he, hez⟩ := List.mem_map.mp h
  have hef : e ∈ zmap.filter fun m => m.1 = zfill5 r.zipRaw :=
    List.mem_filter.mpr ⟨he, by simp [hez]⟩
  have hne : ¬ (zmap.filter fun m => m.1 = zfill5 r.zipRaw).isEmpty = true := by
    intro hemp
    rw [List.isEmpty_iff] at hemp
    rw [hemp] at hef
    cases hef
  have hjoin : rowJoin zmap r
      = (zmap.filter fun m => m.1 = zfill5 r.zipRaw).map
          fun m => MergedRow.mk r (zfill5 r.zipRaw) (some m.2) := by
    simp only [rowJoin, if_neg hne]
  refine ⟨?_, ?_, ?_⟩
  · rw [hjoin, List.length_map]
  · intro m hm
    rw [hjoin] at hm
    obtain ⟨e2, he2, rfl⟩ := List.mem_map.mp hm
    have he2m := List.mem_filter.mp he2
    refine ⟨rfl, rfl, e2.2, rfl, ?_⟩
    have : e2.1 = zfill5 r.zipRaw := by simpa using he2m.2
    have he2p : e2 = (zfill5 r.zipRaw, e2.2) := Prod.ext this rfl
    exact he2p ▸ he2m.1
  · intro h1
    rw [hjoin, List.length_map, h1]

/-- Witness for C1 (amended): a crosswalk listing the zip 90210 once gives the
joined table exactly one row for the matched provider row. -/
theorem rowJoin_matched_witness :
    (rowJoin [("90210", "Los Angeles")]
        ⟨1003000126, "Smith", "Amy", "CA", "Internal Medicine", 25, 1200, "90210"⟩).length
      = ([("90210", "Los Angeles")].filter fun m =>
          m.1 = zfill5 (ProvRow.mk 1003000126 "Smith" "Amy" "CA" "Internal Medicine"
            25 1200 "90210").zipRaw).length :=
  (rowJoin_matched [("90210", "Los Angeles")]
      ⟨1003000126, "Smith", "Amy", "CA", "Internal Medicine", 25, 1200, "90210"⟩
      (by decide)).1

/-- Insertion step of a sort by descending value, embedding
`sort_values("ENROLLED", ascending=False)`. -/
def insertDesc (p : String × Int) : List (String × Int) → List (String × Int)
  | [] => [p]
  | q :: t => if p.2 ≤ q.2 then q :: insertDesc p t else p :: q :: t

/-- Sort a keyed value list by descending value.  pandas `sort_values` uses an
unstable sort, so ties may come out in another order; every property proved
here is insensitive to the order of ties. -/
def sortDesc : List (String × Int) → List (String × Int)
  | [] => []
  | p :: t => insertDesc p (sortDesc t)

theorem insertDesc_perm (p : String × Int) : ∀ l, List.Perm (insertDesc p l) (p :: l)
  | [] => List.Perm.refl _
  | q :: t => by
    by_cases h : p.2 ≤ q.2
    · simp only [insertDesc, if_pos h]
      exact ((insertDesc_perm p t).cons q).trans (List.Perm.swap p q t)
    · simp only [insertDesc, if_neg h]
      exact List.Perm.refl _

theorem sortDesc_perm : ∀ l, List.Perm (sortDesc l) l
  | [] => List.Perm.refl _
  | p :: t => (insertDesc_perm p (sortDesc t)).trans ((sortDesc_perm t).cons p)

theorem insertDesc_pairwise (p : String × Int) :
    ∀ l, l.Pairwise (fun a b => b.2 ≤ a.2) →
      (insertDesc p l).Pairwise (fun a b => b.2 ≤ a.2)
  | [], _ => by simp [insertDesc]
  | q :: t, h => by
    rw [List.pairwise_cons] at h
    by_cases hle : p.2 ≤ q.2
    · simp only [insertDesc, if_pos hle]
      rw [List.pairwise_cons]
      refine ⟨?_, insertDesc_pairwise p t h.2⟩
      intro b hb
      rcases List.mem_cons.mp ((insertDesc_perm p t).mem_iff.mp hb) with hbp | hbt
      · exact hbp ▸ hle
      · exact h.1 b hbt
    · simp only [insertDesc, if_neg hle]
      rw [List.pairwise_cons]
      refine ⟨?_, List.pairwise_cons.mpr h⟩
      intro b hb
      rcases List.mem_cons.mp hb with hbq | hbt
      · exact hbq ▸ le_of_lt (not_le.mp hle)
      · exact le_trans (h.1 b hbt) (le_of_lt (not_le.mp hle))

theorem sortDesc_pairwise : ∀ l, (sortDesc l).Pairwise (fun a b => b.2 ≤ a.2)
  | [] => List.Pairwise.nil
  | p :: t => insertDesc_pairwise p (sortDesc t) (sortDesc_pairwise t)

/-- Embeds `pairs.sort_values("ENROLLED", ascending=False).head(n)` followed by
taking the county column, as done at line 21 of `process_provider_data.py`
(n = 10) and at lines 83-84 of `dashboard.py` (n = 7). -/
def topNCounties (n : Nat) (pairs : List (String × Int)) : List String :=
  ((sortDesc pairs).take n).map Prod.fst

/-- Ranking property of `topNCounties` on a table with pairwise-distinct
counties: a county kept has at least the summed value of any county
dropped. -/
theorem topNCounties_rank (n : Nat) (pairs : List (String × Int))
    (hnd : (pairs.map Prod.fst).Nodup) :
    ∀ p ∈ pairs, p.1 ∈ topNCounties n pairs →
      ∀ q ∈ pairs, q.1 ∉ topNCounties n pairs → q.2 ≤ p.2 := by
  intro p hp hptop q hq hqtop
  have hperm : List.Perm (sortDesc pairs) pairs := sortDesc_perm pairs
  have hpw : (sortDesc pairs).Pairwise (fun a b => b.2 ≤ a.2) := sortDesc_pairwise pairs
  have hnds : ((sortDesc pairs).map Prod.fst).Nodup := (hperm.map Prod.fst).nodup_iff.mpr hnd
  have hsplit : (sortDesc pairs).take n ++ (sortDesc pairs).drop n = sortDesc pairs :=
    List.take_append_drop n (sortDesc pairs)
  simp only [topNCounties] at hptop hqtop
  have hps : p ∈ (sortDesc pairs).take n ++ (sortDesc pairs).drop n := by
    rw [hsplit]; exact hperm.mem_iff.mpr hp
  have hqs : q ∈ (sortDesc pairs).take n ++ (sortDesc pairs).drop n := by
    rw [hsplit]; exact hperm.mem_iff.mpr hq
  have hnds2 : (((sortDesc pairs).take n).map Prod.fst
      ++ ((sortDesc pairs).drop n).map Prod.fst).Nodup := by
    rw [← List.map_append, hsplit]; exact hnds
  have hdisj := (List.nodup_append.mp hnds2).2.2
  have hptake : p ∈ (sortDesc pairs).take n := by
    rcases List.mem_append.mp hps with h1 | h1
    · exact h1
    · exact (hdisj hptop (List.mem_map_of_mem Prod.fst h1)).elim
  have hqdrop : q ∈ (sortDesc pairs).drop n := by
    rcases List.mem_append.mp hqs with h1 | h1
    · exact (hqtop (List.mem_map_of_mem Prod.fst h1)).elim
    · exact h1
  have hpw2 : ((sortDesc pairs).take n ++ (sortDesc pairs).drop n).Pairwise
      (fun a b => b.2 ≤ a.2) := by
    rw [hsplit]; exact hpw
  exact (List.pairwise_append.mp hpw2).2.2 p hptake q hqdrop

/-- A row of the persisted combined enrollment table read back by
`process_provider_data.py` (line 13) and `dashboard.py` (line 59): columns
STATE, COUNTY, PLAN TYPE, DATE (month code yyyymm), ENROLLED. -/
structure CERow where
  state : String
  county : String
  planType : String
  date : Nat
  enrolled : Int
  deriving DecidableEq

/-- Embeds `enrollment_df["DATE"].max()` (line 15 of
`process_provider_data.py`). -/
def latestDate (df : List CERow) : Nat :=
  (df.map fun r => r.date).foldl max 0

/-- Embeds `enrollment_df[enrollment_df["DATE"] == latest_date]`
(line 16). -/
def latestSnapshot (df : List CERow) : List CERow :=
  df.filter fun r => r.date = latestDate df

/-- Embeds `latest_enrollment.groupby("COUNTY")["ENROLLED"].sum()`
(line 18). -/
def countyEnrollment (df : List CERow) : List (String × Int) :=
  groupbySum ((latestSnapshot df).map fun r => (r.county, r.enrolled))

/-- Embeds lines 15-21 of `process_provider_data.py`: the top-10 counties by
summed enrollment at the latest date of the combined enrollment table. -/
def topCountiesLatest (df : List CERow) : List String :=
  topNCounties 10 (countyEnrollment df)

/-- Embeds `df_merged["county"].isin(top_counties)` (line 83) on one merged
row; a NaN county (no crosswalk match) is never in the list. -/
def countyInTop (tc : List String) (m : MergedRow) : Bool :=
  match m.county with
  | some c => decide (c ∈ tc)
  | none => false

/-- Embeds `df_prov[df_prov["Rndrng_Prvdr_State_Abrvtn"] == "CA"]`
(line 71). -/
def caProviders (provs : List ProvRow) : List ProvRow :=
  provs.filter fun r => r.state = "CA"

/-- Embeds `df_merged` of line 80: CA providers joined to the crosswalk. -/
def dfMerged (zmap : List (String × String)) (provs : List ProvRow) : List MergedRow :=
  mergeZipCounty zmap (caProviders provs)

/-- Embeds `df_target = df_merged[df_merged["county"].isin(top_counties)]`
(line 83), the rows persisted as the detailed per-provider output of
line 91. -/
def dfTarget (zmap : List (String × String)) (provs : List ProvRow)
    (enrl : List CERow) : List MergedRow :=
  (dfMerged zmap provs).filter (countyInTop (topCountiesLatest enrl))

theorem countyInTop_iff (tc : List String) (m : MergedRow) :
    countyInTop tc m = true ↔ ∃ c, m.county = some c ∧ c ∈ tc := by
  cases hmc : m.county with
  | none => simp [countyInTop, hmc]
  | some c => simp [countyInTop, hmc]

/-- C6: the detailed per-provider output of `process_provider_data` holds
exactly the merged CA provider rows whose joined county lies among the top-10
counties ranked by summed PACE enrollment at the latest DATE of the combined
enrollment table: membership in the output is equivalent to that restriction,
the restriction list has at most 10 counties, each drawn from the latest
snapshot, and every kept county's latest enrollment is at least that of every
dropped county. -/
theorem dfTarget_top10 (zmap : List (String × String)) (provs : List ProvRow)
    (enrl : List CERow) :
    (∀ m, m ∈ dfTarget zmap provs enrl ↔
        m ∈ dfMerged zmap provs ∧ ∃ c, m.county = some c ∧ c ∈ topCountiesLatest enrl)
    ∧ (topCountiesLatest enrl).length ≤ 10
    ∧ (∀ c ∈ topCountiesLatest enrl, ∃ v, (c, v) ∈ countyEnrollment enrl)
    ∧ (∀ p ∈ countyEnrollment enrl, p.1 ∈ topCountiesLatest enrl →
        ∀ q ∈ countyEnrollment enrl, q.1 ∉ topCountiesLatest enrl → q.2 ≤ p.2) := by
  refine ⟨?_, ?_, ?_, ?_⟩
  · intro m
    rw [dfTarget, List.mem_filter, countyInTop_iff]
  · rw [topCountiesLatest, topNCounties, List.length_map, List.length_take]
    exact min_le_left _ _
  · intro c hc
    simp only [topCountiesLatest, topNCounties] at hc
    obtain ⟨p, hp, rfl⟩ := List.mem_map.mp hc
    have hps : p ∈ sortDesc (countyEnrollment enrl) := List.mem_of_mem_take hp
    have hpe : p ∈ countyEnrollment enrl := (sortDesc_perm _).mem_iff.mp hps
    exact ⟨p.2, by rwa [Prod.mk.eta]⟩
  · have hnd : ((countyEnrollment enrl).map Prod.fst).Nodup := by
      rw [countyEnrollment, groupbySum_keys]
      exact List.nodup_dedup _
    exact topNCounties_rank 10 (countyEnrollment enrl) hnd

/-- Enrollment table used by the C6 witness. -/
def enrlWitness : List CERow :=
  [⟨"CA", "Fresno", "National PACE", 202401, 10⟩]

/-- Provider row used by the C6 witness. -/
def provWitness : ProvRow :=
  ⟨1407809999, "Lee", "Bo", "CA", "Cardiology", 5, 100, "93701"⟩

/-- Witness for C6: a CA provider in Fresno, the sole (hence top) county of
the latest snapshot, is kept in the detailed output. -/
theorem dfTarget_top10_witness :
    MergedRow.mk provWitness "93701" (some "Fresno")
      ∈ dfTarget [("93701", "Fresno")] [provWitness] enrlWitness :=
  ((dfTarget_top10 [("93701", "Fresno")] [provWitness] enrlWitness).1
      (MergedRow.mk provWitness "93701" (some "Fresno"))).mpr
    ⟨by decide, "Fresno", rfl, by decide⟩

/-- Embeds `latest_df = df[df["DATE"] == selected_date]` (line 221 of
`dashboard.py`), keeping the columns the choropleth join uses: the COUNTY key
and the ENROLLED value. -/
def monthSnapshot (df : List CERow) (d : Nat) : List (String × Int) :=
  (df.filter fun r => r.date = d).map fun r => (r.county, r.enrolled)

/-- Embeds `pd.merge(all_counties_df, latest_df, on="COUNTY", how="left")`
(line 233): each GeoJSON county expanded by its matching snapshot rows, or by
a single row whose enrollment is NaN (here `none`) when the snapshot has no
row for it. -/
def mergeLeftCounty (geo : List String) (snap : List (String × Int)) :
    List (String × Option Int) :=
  geo.flatMap fun c =>
    let ms := snap.filter fun p => p.1 = c
    if ms.isEmpty then [(c, none)] else ms.map fun p => (c, some p.2)

/-- Embeds `map_data["ENROLLED"] = map_data["ENROLLED"].fillna(0)`
(line 236). -/
def fillZeroEnrolled (l : List (String × Option Int)) : List (String × Int) :=
  l.map fun p => (p.1, p.2.getD 0)

/-- Embeds lines 221-236 of `dashboard.py`: the table behind the choropleth
map for the selected month. -/
def choroplethData (geo : List String) (df : List CERow) (d : Nat) : List (String × Int) :=
  fillZeroEnrolled (mergeLeftCounty geo (monthSnapshot df d))

/-- C7: in the choropleth data for a selected month, every county of the
GeoJSON absent from the enrollment snapshot of that month carries
ENROLLED = 0 — an actual zero, the value type having no null — and every
county present keeps its snapshot value. -/
theorem choropleth_zero_fill (geo : List String) (df : List CERow) (d : Nat) :
    (∀ c ∈ geo, c ∉ (monthSnapshot df d).map Prod.fst →
      ((c, (0 : Int)) ∈ choroplethData geo df d
        ∧ ∀ v, (c, v) ∈ choroplethData geo df d → v = 0))
    ∧ (∀ c v, c ∈ geo → (c, v) ∈ monthSnapshot df d → (c, v) ∈ choroplethData geo df d) := by
  constructor
  · intro c hc habs
    have hfil : (monthSnapshot df d).filter (fun p => p.1 = c) = [] := by
      refine List.filter_eq_nil_iff.mpr ?_
      intro p hp
      simp only [decide_eq_true_eq]
      intro h
      exact habs (h ▸ List.mem_map_of_mem Prod.fst hp)
    have hmerge : (c, (none : Option Int)) ∈ mergeLeftCounty geo (monthSnapshot df d) := by
      refine List.mem_flatMap.mpr ⟨c, hc, ?_⟩
      simp [hfil]
    constructor
    · exact List.mem_map.mpr ⟨(c, none), hmerge, rfl⟩
    · intro v hv
      obtain ⟨p, hp, heq⟩ := List.mem_map.mp hv
      obtain ⟨c2, hc2, hpc2⟩ := List.mem_flatMap.mp hp
      by_cases hms : ((monthSnapshot df d).filter fun q => q.1 = c2).isEmpty = true
      · rw [if_pos hms] at hpc2
        have hpe := List.mem_singleton.mp hpc2
        subst hpe
        simpa using (congrArg Prod.snd heq).symm
      · rw [if_neg hms] at hpc2
        obtain ⟨q, hq, rfl⟩ := List.mem_map.mp hpc2
        have hcc : c2 = c := congrArg Prod.fst heq
        subst hcc
        have hq2 := List.mem_filter.mp hq
        have hq3 : q.1 = c2 := by simpa using hq2.2
        exact absurd (hq3 ▸ List.mem_map_of_mem Prod.fst hq2.1) habs
  · intro c v hc hsnap
    have hmemf : (c, v) ∈ (monthSnapshot df d).filter fun p => p.1 = c :=
      List.mem_filter.mpr ⟨hsnap, by simp⟩
    have hne : ¬ ((monthSnapshot df d).filter fun p => p.1 = c).isEmpty = true := by
      intro hemp
      rw [List.isEmpty_iff] at hemp
      rw [hemp] at hmemf
      cases hmemf
    have hmerge : (c, some v) ∈ mergeLeftCounty geo (monthSnapshot df d) := by
      refine List.mem_flatMap.mpr ⟨c, hc, ?_⟩
      simp only [if_neg hne]
      exact List.mem_map.mpr ⟨(c, v), hmemf, rfl⟩
    exact List.mem_map.mpr ⟨(c, some v), hmerge, rfl⟩

/-- Witness for C7: with a GeoJSON naming Alpine and Fresno and a snapshot
holding only Fresno, the map data gives Alpine the value 0. -/
theorem choropleth_zero_fill_witness :
    ("Alpine", (0 : Int)) ∈ choroplethData ["Alpine", "Fresno"]
      [⟨"CA", "Fresno", "National PACE", 202401, 12⟩] 202401 :=
  ((choropleth_zero_fill ["Alpine", "Fresno"]
      [⟨"CA", "Fresno", "National PACE", 202401, 12⟩] 202401).1
    "Alpine" (by decide) (by decide)).1

/-- Embeds `gap_filtered_prov.groupby("county")["Rndrng_NPI"].nunique()`
(line 457 of `dashboard.py`): from (county, NPI) pairs, the number of distinct
NPIs per county. -/
def countyProviderCounts (rows : List (String × Nat)) : List (String × Nat) :=
  ((rows.map Prod.fst).dedup).map fun c =>
    (c, ((rows.filter fun p => p.1 = c).map Prod.snd).dedup.length)

/-- A row of the provider-density table of the Provider Insights page. -/
structure GapRow where
  county : String
  provCount : Nat
  maEnrolled : Int
  density : ℚ
  deriving DecidableEq

/-- Embeds lines 457-466 of `dashboard.py`: left-merge the per-county provider
counts with the total-MA-enrollment table on county, fill a missing
MA_ENROLLED with 0, compute
`Providers_Per_100_MA_Enrolled = Provider_Count / MA_ENROLLED * 100`, then
keep only the rows with `MA_ENROLLED > 0` before the table is reported.  The
ascending sort of line 468 only reorders rows and is omitted. -/
def gapTable (provRows : List (String × Nat)) (maEnrl : List (String × Int)) :
    List GapRow :=
  let pc := countyProviderCounts provRows
  let merged : List (String × Nat × Option Int) := pc.flatMap fun p =>
    let ms := maEnrl.filter fun q => q.1 = p.1
    if ms.isEmpty then [(p.1, p.2, none)] else ms.map fun q => (p.1, p.2, some q.2)
  let filled := merged.map fun t => (t.1, t.2.1, t.2.2.getD 0)
  let dens := filled.map fun t =>
    GapRow.mk t.1 t.2.1 t.2.2 (((t.2.1 : ℚ) / (t.2.2 : ℚ)) * 100)
  dens.filter fun g => 0 < g.maEnrolled

/-- C8: every county reported in the provider-density table has strictly
positive Medicare-Advantage enrollment — counties with zero or missing MA
enrollment are dropped before the table is reported — and each reported
density is the quotient Provider_Count / MA_ENROLLED times 100 with a
positive denominator, so no reported density results from a division by
zero. -/
theorem gapTable_pos (provRows : List (String × Nat)) (maEnrl : List (String × Int)) :
    ∀ g ∈ gapTable provRows maEnrl,
      0 < g.maEnrolled
      ∧ g.density = ((g.provCount : ℚ) / (g.maEnrolled : ℚ)) * 100 := by
  intro g hg
  simp only [gapTable] at hg
  have hg2 := List.mem_filter.mp hg
  constructor
  · simpa using hg2.2
  · obtain ⟨t, ht, rfl⟩ := List.mem_map.mp hg2.1
    rfl

/-- Row of the density table used by the C8 witness. -/
def gapRowW : GapRow :=
  ⟨"Fresno", 1, 100, ((1 : ℚ) / (100 : ℚ)) * 100⟩

/-- Witness for C8: one Fresno provider against 100 MA enrollees is reported
with positive enrollment and density 1 per 100. -/
theorem gapTable_pos_witness :
    0 < gapRowW.maEnrolled
    ∧ gapRowW.density = ((gapRowW.provCount : ℚ) / (gapRowW.maEnrolled : ℚ)) * 100 :=
  gapTable_pos [("Fresno", 1407809999)] [("Fresno", 100)] gapRowW (by
    have h : gapTable [("Fresno", 1407809999)] [("Fresno", 100)] = [gapRowW] := by
      simp [gapTable, countyProviderCounts, gapRowW]
    rw [h]
    exact List.mem_singleton.mpr rfl)

/-- Embeds `county_totals` (line 83 of `dashboard.py`):
`df.groupby("COUNTY")["ENROLLED"].sum()` over all dates. -/
def countyTotals (df : List CERow) : List (String × Int) :=
  groupbySum (df.map fun r => (r.county, r.enrolled))

/-- Embeds the County_Grouped assignment of line 87 of `dashboard.py`: a
county keeps its name when among the top counties and becomes the Others
bucket otherwise. -/
def countyGrouped (tc : List String) (c : String) : String :=
  if c ∈ tc then c else "Others"

/-- Embeds `process_data` (lines 77-92 of `dashboard.py`): the empty frame is
returned as is with an empty county list; otherwise the top-7 counties by
total enrollment are kept by name, all others are bucketed as Others, and
ENROLLED is aggregated by (DATE, County_Grouped). -/
def processData (df : List CERow) : List ((Nat × String) × Int) × List String :=
  if df.isEmpty then ([], [])
  else
    let tc := topNCounties 7 (countyTotals df)
    (groupbySum (df.map fun r => ((r.date, countyGrouped tc r.county), r.enrolled)), tc)

/-- C10: the grouping of `process_data` preserves total enrollment — for every
non-empty input frame, ENROLLED summed over the grouped output (top-7 counties
plus the Others bucket, per date) equals ENROLLED summed over the input. -/
theorem processData_total (df : List CERow) (h : df ≠ []) :
    totalVal (processData df).1 = (df.map fun r => r.enrolled).sum := by
  have hne : df.isEmpty = false := by
    cases df with
    | nil => exact absurd rfl h
    | cons a t => rfl
  have hP : (processData df).1
      = groupbySum (df.map fun r =>
          ((r.date, countyGrouped (topNCounties 7 (countyTotals df)) r.county), r.enrolled)) := by
    simp [processData, hne]
  rw [hP, totalVal_groupbySum]
  simp [totalVal, List.map_map, Function.comp_def]

/-- Witness for C10: evaluated on a concrete one-row frame. -/
theorem processData_total_witness :
    totalVal (processData [⟨"CA", "Fresno", "National PACE", 202401, 5⟩]).1
      = (([⟨"CA", "Fresno", "National PACE", 202401, 5⟩] : List CERow).map
          fun r => r.enrolled).sum :=
  processData_total [⟨"CA", "Fresno", "National PACE", 202401, 5⟩]
    (List.cons_ne_nil _ _)

end PaceDash
